import Mathlib

/-!
Shallow embedding of the caddy-handle-scraper server and client
(src/types/index.ts, src/server/index.ts, src/unnamed/part_002 = app.ts,
src/client/index.ts, src/unnamed/part_005 = client class variant),
together with proofs checking the natural-language specification.

The SQLite `services` table is modelled as a list of rows; `SELECT ... WHERE
subdomain = ?` is the first matching row, `INSERT` appends, `UPDATE` rewrites
the matching rows in place, `DELETE` filters.  Timestamps are opaque strings
supplied by a function `nowAt : Nat -> String` giving the value of
`new Date().toISOString()` at the i-th loop iteration of `processRequest`.
-/

namespace CHS

/-- `Service` from src/types/index.ts: one element of the POST body's
`services` array. -/
structure Service where
  port : Int
  subdomain : String
deriving Repr, DecidableEq

/-- `ServicesRequest` from src/types/index.ts: the POST /services body. -/
structure ServicesRequest where
  host_ip : String
  services : List Service
deriving Repr, DecidableEq

/-- `ServiceRow` from src/types/index.ts: one persisted row of the
`services` table. -/
structure ServiceRow where
  created_at : String
  host_ip : String
  port : Int
  subdomain : String
  updated_at : String
deriving Repr, DecidableEq

/-- The `services` table: a list of rows in insertion order. -/
abbrev Db := List ServiceRow

/-- `SELECT * FROM services WHERE subdomain = ?` (first match).  The code
reads only the `port` column of the result, but the row is what SQLite finds. -/
def findRow (db : Db) (sub : String) : Option ServiceRow :=
  db.find? (fun r => r.subdomain == sub)

/-- `UPDATE services SET port = ?, updated_at = ? WHERE subdomain = ?`:
every matching row gets the new port and updated_at; nothing else changes.
Note the statement does NOT touch `host_ip` or `created_at`. -/
def updateRow (db : Db) (sub : String) (p : Int) (now : String) : Db :=
  db.map (fun r =>
    if r.subdomain == sub then { r with port := p, updated_at := now } else r)

/-- `DELETE FROM services WHERE subdomain = ?`. -/
def deleteRows (db : Db) (sub : String) : Db :=
  db.filter (fun r => r.subdomain != sub)

/-- A write performed against the database (used to state the spec's
"no additional writes" idempotence property). -/
inductive DbWrite where
  | insert (row : ServiceRow)
  | update (subdomain : String) (port : Int) (now : String)
deriving Repr, DecidableEq

/-- One iteration of the `services.forEach` loop inside `processRequest`
(src/server/index.ts lines 232-245): look the subdomain up; if absent,
insert `(subdomain, host_ip, port, now, now)`; if present with a different
port, update `port` and `updated_at`; otherwise do nothing. -/
def upsertDb (hostIp now : String) (db : Db) (s : Service) : Db :=
  match findRow db s.subdomain with
  | none => db ++ [⟨now, hostIp, s.port, s.subdomain, now⟩]
  | some existing =>
      if existing.port ≠ s.port then updateRow db s.subdomain s.port now else db

/-- The writes issued by the same loop iteration. -/
def upsertWrites (hostIp now : String) (db : Db) (s : Service) : List DbWrite :=
  match findRow db s.subdomain with
  | none => [.insert ⟨now, hostIp, s.port, s.subdomain, now⟩]
  | some existing =>
      if existing.port ≠ s.port then [.update s.subdomain s.port now] else []

/-- The `services.forEach` loop of `processRequest`, processing the i-th
service with timestamp `nowAt i`. -/
def upsertLoopDb (hostIp : String) (nowAt : Nat → String) :
    List Service → Nat → Db → Db
  | [], _, db => db
  | s :: rest, i, db =>
      upsertLoopDb hostIp nowAt rest (i + 1) (upsertDb hostIp (nowAt i) db s)

/-- The writes issued by the whole loop, in order. -/
def upsertLoopWrites (hostIp : String) (nowAt : Nat → String) :
    List Service → Nat → Db → List DbWrite
  | [], _, _ => []
  | s :: rest, i, db =>
      upsertWrites hostIp (nowAt i) db s ++
        upsertLoopWrites hostIp nowAt rest (i + 1) (upsertDb hostIp (nowAt i) db s)

/-- `processRequest` (src/server/index.ts lines 222-249, identically
src/unnamed/part_002 lines 115-152 in live mode): apply the upsert loop to
the whole batch. -/
def processRequest (nowAt : Nat → String) (body : ServicesRequest) (db : Db) : Db :=
  upsertLoopDb body.host_ip nowAt body.services 0 db

/-- The list of database writes `processRequest` performs. -/
def processRequestWrites (nowAt : Nat → String) (body : ServicesRequest)
    (db : Db) : List DbWrite :=
  upsertLoopWrites body.host_ip nowAt body.services 0 db

/-! ### File renderer (handlerTemplate / writeHandlerFiles) -/

/-- ASCII alphanumeric character. -/
def isAlnum (c : Char) : Bool := c.isAlpha || c.isDigit

/-- Splitter into maximal alphanumeric runs, accumulating the current run in
reverse. -/
def splitWordsAux : List Char → List Char → List String
  | [], acc => if acc.isEmpty then [] else [String.mk acc.reverse]
  | c :: cs, acc =>
      if isAlnum c then splitWordsAux cs (c :: acc)
      else if acc.isEmpty then splitWordsAux cs []
      else String.mk acc.reverse :: splitWordsAux cs []

/-- Modelled from lodash's `camelCase` on ASCII input: the words of a string
are its maximal alphanumeric runs. -/
def asciiWords (s : String) : List String :=
  splitWordsAux s.data []

/-- Capitalize one word: first letter upper-cased, rest lower-cased, as
lodash `capitalize` does for the non-leading words of `camelCase`. -/
def capitalizeWord (w : String) : String :=
  match w.data with
  | [] => ""
  | c :: cs => String.mk (c.toUpper :: cs.map Char.toLower)

/-- Modelled from lodash's `camelCase` (imported in src/server/index.ts):
lower-case the first word, capitalize the following ones, concatenate.
Subdomains are hyphen/underscore/dot-delimited ASCII, where this agrees with
lodash. -/
def camelCase (s : String) : String :=
  match asciiWords s with
  | [] => ""
  | w :: ws =>
      String.mk (w.data.map Char.toLower) ++ String.join (ws.map capitalizeWord)

/-- `handlerTemplate` (src/server/index.ts lines 266-280): the two-line Caddy
handler block for one row. -/
def handlerTemplate (r : ServiceRow) : String :=
  let subdomainCamel := camelCase r.subdomain
  "@" ++ subdomainCamel ++ " host " ++ r.subdomain ++
    ".\x7b$INTERNAL_DOMAIN\x7d\nhandle @" ++ subdomainCamel ++
    " \x7b\n  reverse_proxy " ++ r.host_ip ++ ":" ++ toString r.port ++ "\n\x7d"

/-- One step of the `services.reduce` in `writeHandlerFiles`: push the row
onto the bucket of its `host_ip`, creating the bucket (at the end, in JS
object insertion order) if it does not exist yet. -/
def addToGroup : List (String × List ServiceRow) → ServiceRow →
    List (String × List ServiceRow)
  | [], r => [(r.host_ip, [r])]
  | g :: gs, r =>
      if g.1 == r.host_ip then (g.1, g.2 ++ [r]) :: gs else g :: addToGroup gs r

/-- The `services.reduce(...)` grouping of `writeHandlerFiles`
(src/server/index.ts lines 288-297): rows bucketed by `host_ip`, buckets in
first-sighting order. -/
def groupByHost (rows : List ServiceRow) : List (String × List ServiceRow) :=
  rows.foldl addToGroup []

/-- Replacement of every `.` by `_`, as `hostIp.replace(/\./g, '_')` does. -/
def replaceDots (s : String) : String :=
  String.mk (s.data.map (fun c => if c = '.' then '_' else c))

/-- Output file name for a host: `chs_` + host IP with every `.` replaced by
`_` (src/server/index.ts line 306). -/
def fileName (hostIp : String) : String :=
  "chs_" ++ replaceDots hostIp

/-- Per-host file content: the rendered blocks joined by a blank line
(`formattedServices.join('\n\n')`). -/
def renderHost (rows : List ServiceRow) : String :=
  String.intercalate "\n\n" (rows.map handlerTemplate)

/-- `writeHandlerFiles` (src/server/index.ts lines 286-312) as the list of
`writeFileSync` calls it performs: one `(file name, content)` pair per host
group, in group order. -/
def writeHandlerFiles (db : Db) : List (String × String) :=
  (groupByHost db).map (fun g => (fileName g.1, renderHost g.2))

/-- Apply one file write to a name-keyed file system (overwrite or create). -/
def applyWrite (fs : List (String × String)) (w : String × String) :
    List (String × String) :=
  if fs.any (fun p => p.1 == w.1) then
    fs.map (fun p => if p.1 == w.1 then w else p)
  else fs ++ [w]

/-- Apply a sequence of file writes in order. -/
def applyWrites (fs : List (String × String)) (ws : List (String × String)) :
    List (String × String) :=
  ws.foldl applyWrite fs

/-- Bucket lookup in a grouping (proof helper for `groupByHost`). -/
def findGroup (groups : List (String × List ServiceRow)) (h : String) :
    Option (List ServiceRow) :=
  (groups.find? (fun g => g.1 == h)).map (fun g => g.2)

/-! ### JSON bodies and request validation -/

/-- A parsed JSON / JavaScript value, as the `body-parser` middleware hands
it to the route handlers. -/
inductive JsVal where
  | null
  | undefined
  | bool (b : Bool)
  | num (n : Int)
  | str (s : String)
  | arr (elems : List JsVal)
  | obj (fields : List (String × JsVal))
deriving Repr

/-- JavaScript truthiness of a value (`!body`, `!item`). -/
def truthy : JsVal → Bool
  | .null => false
  | .undefined => false
  | .bool b => b
  | .num n => n != 0
  | .str s => s != ""
  | .arr _ => true
  | .obj _ => true

/-- lodash `hasIn(value, key)` for the single-segment keys the server uses:
key present on an object, valid index on an array, absent on primitives. -/
def hasIn : JsVal → String → Bool
  | .obj fields, k => fields.any (fun f => f.1 == k)
  | .arr xs, k =>
      match k.toNat? with
      | some i => i < xs.length
      | none => false
  | _, _ => false

/-- JavaScript property access `v[k]` (undefined when absent). -/
def getProp : JsVal → String → JsVal
  | .obj fields, k =>
      match fields.find? (fun f => f.1 == k) with
      | some f => f.2
      | none => .undefined
  | .arr xs, k =>
      match k.toNat? with
      | some i => xs.getD i .undefined
      | none => .undefined
  | _, _ => .undefined

/-- `Array.isArray`. -/
def isArray : JsVal → Bool
  | .arr _ => true
  | _ => false

/-- JavaScript `typeof v === 'object'` (true for objects, arrays and null). -/
def isObjectType : JsVal → Bool
  | .obj _ => true
  | .arr _ => true
  | .null => true
  | _ => false

/-- The elements of an array value (only used after an `Array.isArray`
check succeeded). -/
def asArray : JsVal → List JsVal
  | .arr xs => xs
  | _ => []

/-- The per-element checks of the `for (const item of body.services)` loop in
`validateBody` (src/server/index.ts lines 111-126), in source order:
object-ness, then `subdomain` presence, then `port` presence. -/
def validateService (item : JsVal) : Option String :=
  if !truthy item || !isObjectType item then
    some "Services must be an array of objects"
  else if !hasIn item "subdomain" then
    some "Each service must contain a subdomain"
  else if !hasIn item "port" then
    some "Each service must contain a port"
  else none

/-- The loop over `body.services`: the first failing element's message. -/
def validateServices : List JsVal → Option String
  | [] => none
  | item :: rest =>
      match validateService item with
      | some e => some e
      | none => validateServices rest

/-- `validateBody` (src/server/index.ts lines 90-128) as the first error
message it responds with, `none` when validation passes: body presence, then
`host_ip` presence, then `services` presence and array-ness, then the
per-element loop. -/
def validateBody (body : JsVal) : Option String :=
  if !truthy body then some "Request body required"
  else if !hasIn body "host_ip" then some "host_ip required"
  else if !hasIn body "services" || !isArray (getProp body "services") then
    some "Services required and must be an array"
  else validateServices (asArray (getProp body "services"))

/-- Reading the validated body as a typed `ServicesRequest` for the database
layer.  A payload whose `host_ip`/`subdomain` is not a string or whose `port`
is not a number passes `validateBody` (it only checks key presence) but makes
better-sqlite3 raise a type error when the value is bound; that failure is
`none` here. -/
def serviceOfJs (v : JsVal) : Option Service :=
  match getProp v "subdomain", getProp v "port" with
  | .str s, .num p => some ⟨p, s⟩
  | _, _ => none

/-- See `serviceOfJs`: the whole body as a typed request, `none` when some
bound value would make the SQLite driver throw. -/
def requestOfJs (body : JsVal) : Option ServicesRequest :=
  match getProp body "host_ip" with
  | .str h => ((asArray (getProp body "services")).mapM serviceOfJs).map
      (fun ss => ⟨h, ss⟩)
  | _ => none

/-! ### HTTP surface -/

/-- The JSON payload of a response: `res.json({message})`,
`res.status(s).json({error})`, or the row list of GET /services. -/
inductive RespBody where
  | msg (message : String)
  | err (error : String)
  | rows (rows : List ServiceRow)
deriving Repr, DecidableEq

/-- An HTTP response: status code (200 unless `res.status` was called) and
JSON payload. -/
structure Response where
  status : Nat
  body : RespBody
deriving Repr, DecidableEq

/-- The four routes the server registers. -/
inductive Request where
  | healthCheck
  | getServices
  | postServices (body : JsVal)
  | deleteService (subdomain : String)

/-- The server-side persistent state: the `services` table and the handler
files directory (file name, content). -/
structure ServerState where
  db : Db
  files : List (String × String)
deriving Repr, DecidableEq

/-- Express binds the `:subdomain` route parameter whenever the DELETE route
matches, so `hasIn(params, 'subdomain')` is true in the handler. -/
def hasInParams (k : String) : Bool := k == "subdomain"

/-- `getAllServices` of src/unnamed/part_002 lines 157-162: the full table,
or the empty list when running in dry-run mode (no database exists). -/
def getAllServicesMode (dryRun : Bool) (db : Db) : List ServiceRow :=
  if dryRun then [] else db

/-- `writeHandlerFiles` of src/unnamed/part_002 lines 186-238 as the file
writes performed: none in dry-run mode (each would-be write is only logged),
the per-host writes of `writeHandlerFiles` otherwise. -/
def writeHandlerFilesMode (dryRun : Bool) (db : Db) : List (String × String) :=
  if dryRun then [] else writeHandlerFiles db

/-- The request dispatch of `createApp` (src/unnamed/part_002): shared-secret
check (`validateAuth`, lines 56-67), then the route handler.  `headerKey` is
the request's `X-Handshake-Key` header (`none` when missing).  The result is
`none` when the live POST route would raise while binding a non-string /
non-number value into SQLite (see `requestOfJs`); every handled request gives
`some (response, new state)`.  With `dryRun = false` this is exactly the
server of src/server/index.ts. -/
def handleRequestMode (dryRun : Bool) (handshakeKey : String)
    (headerKey : Option String) (req : Request) (nowAt : Nat → String)
    (st : ServerState) : Option (Response × ServerState) :=
  if headerKey ≠ some handshakeKey then
    some (⟨401, .err "Unauthorized"⟩, st)
  else
    match req with
    | .healthCheck => some (⟨200, .msg "Health check received"⟩, st)
    | .getServices => some (⟨200, .rows (getAllServicesMode dryRun st.db)⟩, st)
    | .postServices body =>
        match validateBody body with
        | some e => some (⟨400, .err e⟩, st)
        | none =>
            if dryRun then some (⟨200, .msg "Success"⟩, st)
            else
              match requestOfJs body with
              | none => none
              | some r =>
                  let db2 := processRequest nowAt r st.db
                  some (⟨200, .msg "Success"⟩,
                    ⟨db2, applyWrites st.files (writeHandlerFilesMode dryRun db2)⟩)
    | .deleteService sub =>
        if !hasInParams "subdomain" && sub.length == 0 then
          some (⟨400, .err "subdomain required"⟩, st)
        else if dryRun then some (⟨200, .msg "Success"⟩, st)
        else
          let db2 := deleteRows st.db sub
          some (⟨200, .msg "Success"⟩,
            ⟨db2, applyWrites st.files (writeHandlerFilesMode dryRun db2)⟩)

/-- The live server of src/server/index.ts: route logic identical to
`createApp` with `dryRun = false`. -/
def handleRequest (handshakeKey : String) (headerKey : Option String)
    (req : Request) (nowAt : Nat → String) (st : ServerState) :
    Option (Response × ServerState) :=
  handleRequestMode false handshakeKey headerKey req nowAt st

/-! ### Discovery client (src/client/index.ts, src/unnamed/part_005) -/

/-- A published port of a container as dockerode reports it: the bound
address and the public (host) port. -/
structure PortBinding where
  IP : String
  PublicPort : Int
deriving Repr, DecidableEq

/-- A running container as the scan sees it: its labels and published
ports. -/
structure Container where
  Labels : List (String × String)
  Ports : List PortBinding
deriving Repr, DecidableEq

/-- `container.Labels[k]`: `some` value when the label exists. -/
def getLabel (c : Container) (k : String) : Option String :=
  (c.Labels.find? (fun f => f.1 == k)).map (fun f => f.2)

/-- Dot-separated fields of a string, empty fields kept (the semantics of a
single-character split). -/
def splitFieldsAux (delim : Char) : List Char → List Char → List String
  | [], acc => [String.mk acc.reverse]
  | c :: cs, acc =>
      if c = delim then
        String.mk acc.reverse :: splitFieldsAux delim cs []
      else splitFieldsAux delim cs (c :: acc)

/-- Split a string at every occurrence of one character, keeping empty
fields. -/
def splitOnChar (delim : Char) (s : String) : List String :=
  splitFieldsAux delim s.data []

/-- Decimal value of a digit string (digits already checked). -/
def digitsToNat (p : String) : Nat :=
  p.data.foldl (fun n c => n * 10 + (c.toNat - 48)) 0

/-- Node's `net.isIPv4`: four dot-separated decimal components, each 0-255
with no leading zero. -/
def isIPv4 (s : String) : Bool :=
  let parts := splitOnChar '.' s
  parts.length == 4 && parts.all (fun p =>
    p ≠ "" && p.data.all Char.isDigit && digitsToNat p ≤ 255 &&
      (p.length == 1 || p.front ≠ '0'))

/-- `Number(label)` for the numeric port-label strings the client expects. -/
def jsNumber (s : String) : Int := s.toInt?.getD 0

/-- `container.Ports.filter((port) => net.isIPv4(port.IP))[0].PublicPort`
(src/client/index.ts line 26): the first IPv4-bound published port; `none`
models the TypeError thrown when the filtered list is empty and `[0]` is
undefined. -/
def firstIPv4PublicPort (c : Container) : Option Int :=
  ((c.Ports.filter (fun p => isIPv4 p.IP)).head?).map (fun p => p.PublicPort)

/-- The per-container port derivation of the scan (src/client/index.ts lines
24-26): the port label's value when that label is present and non-empty,
otherwise the first IPv4-bound published port (which can throw — `none`). -/
def derivePort (portLabel : String) (c : Container) : Option Int :=
  match getLabel c portLabel with
  | some v => if v ≠ "" then some (jsNumber v) else firstIPv4PublicPort c
  | none => firstIPv4PublicPort c

/-- One element of the scan's `containersWithLabel.map` (src/client/index.ts
lines 22-29): the service built from one container, `none` when the port
derivation throws. -/
def scanService (subdomainLabel portLabel : String) (c : Container) :
    Option Service :=
  (derivePort portLabel c).map
    (fun p => ⟨p, (getLabel c subdomainLabel).getD ""⟩)

/-- The batch payload built by one scan over the listed containers: `none`
when any container's port derivation throws, in which case no payload is
built and the scan fails. -/
def buildPayload (hostIp subdomainLabel portLabel : String)
    (cs : List Container) : Option ServicesRequest :=
  (cs.mapM (scanService subdomainLabel portLabel)).map
    (fun ss => ⟨hostIp, ss⟩)

/-! ### Basic lemmas about the table operations -/

theorem findRow_cons (r : ServiceRow) (db : Db) (sub : String) :
    findRow (r :: db) sub =
      if r.subdomain = sub then some r else findRow db sub := by
  simp only [findRow, List.find?_cons]
  by_cases h : r.subdomain = sub
  · simp [h]
  · have hb : (r.subdomain == sub) = false := by simp [h]
    simp [hb, h]

theorem findRow_eq_none_iff (db : Db) (sub : String) :
    findRow db sub = none ↔ ∀ r ∈ db, r.subdomain ≠ sub := by
  simp [findRow, List.find?_eq_none]

theorem findRow_subdomain (db : Db) (sub : String) (r : ServiceRow)
    (h : findRow db sub = some r) : r.subdomain = sub := by
  have := List.find?_some h
  simpa using this

theorem findRow_mem (db : Db) (sub : String) (r : ServiceRow)
    (h : findRow db sub = some r) : r ∈ db :=
  List.mem_of_find?_eq_some h

theorem findRow_append (db1 db2 : Db) (sub : String) :
    findRow (db1 ++ db2) sub = (findRow db1 sub).or (findRow db2 sub) := by
  simp [findRow, List.find?_append]

theorem findRow_append_of_some (db : Db) (r x : ServiceRow) (sub : String)
    (h : findRow db sub = some x) : findRow (db ++ [r]) sub = some x := by
  rw [findRow_append, h]; rfl

theorem findRow_append_of_none (db : Db) (r : ServiceRow) (sub : String)
    (h : findRow db sub = none) :
    findRow (db ++ [r]) sub =
      if r.subdomain = sub then some r else none := by
  rw [findRow_append, h]
  by_cases hr : r.subdomain = sub <;> simp [findRow, List.find?_cons, hr]

theorem findRow_updateRow_self (db : Db) (sub : String) (p : Int) (now : String) :
    findRow (updateRow db sub p now) sub =
      (findRow db sub).map (fun r => { r with port := p, updated_at := now }) := by
  induction db with
  | nil => rfl
  | cons r rest ih =>
      by_cases h : r.subdomain = sub
      · simp only [updateRow, List.map_cons, beq_iff_eq, if_pos h]
        rw [findRow_cons, findRow_cons]
        simp [h]
      · simp only [updateRow, List.map_cons, beq_iff_eq, if_neg h]
        rw [findRow_cons, findRow_cons, if_neg h, if_neg h]
        simpa only [updateRow, beq_iff_eq] using ih

theorem findRow_updateRow_of_ne (db : Db) (subU subF : String) (p : Int)
    (now : String) (h : subU ≠ subF) :
    findRow (updateRow db subU p now) subF = findRow db subF := by
  induction db with
  | nil => rfl
  | cons r rest ih =>
      by_cases hu : r.subdomain = subU
      · have hrF : r.subdomain ≠ subF := by rw [hu]; exact h
        simp only [updateRow, List.map_cons, beq_iff_eq, if_pos hu]
        rw [findRow_cons, findRow_cons]
        simp only [if_neg hrF]
        simpa only [updateRow, beq_iff_eq] using ih
      · simp only [updateRow, List.map_cons, beq_iff_eq, if_neg hu]
        rw [findRow_cons, findRow_cons]
        by_cases hf : r.subdomain = subF
        · simp [hf]
        · simp only [if_neg hf]
          simpa only [updateRow, beq_iff_eq] using ih

theorem updateRow_map_subdomain (db : Db) (sub : String) (p : Int)
    (now : String) :
    (updateRow db sub p now).map (fun r => r.subdomain) =
      db.map (fun r => r.subdomain) := by
  induction db with
  | nil => rfl
  | cons r rest ih =>
      simp only [updateRow, List.map_cons, beq_iff_eq] at ih ⊢
      by_cases h : r.subdomain = sub
      · rw [if_pos h, ih]
      · rw [if_neg h, ih]

/-! ### Lemmas about one upsert step -/

theorem upsertDb_absent (hostIp now : String) (db : Db) (s : Service)
    (h : findRow db s.subdomain = none) :
    upsertDb hostIp now db s =
      db ++ [⟨now, hostIp, s.port, s.subdomain, now⟩] := by
  simp [upsertDb, h]

theorem upsertDb_update (hostIp now : String) (db : Db) (s : Service)
    (old : ServiceRow) (h : findRow db s.subdomain = some old)
    (hp : old.port ≠ s.port) :
    upsertDb hostIp now db s = updateRow db s.subdomain s.port now := by
  simp [upsertDb, h, hp]

theorem upsertDb_noop (hostIp now : String) (db : Db) (s : Service)
    (old : ServiceRow) (h : findRow db s.subdomain = some old)
    (hp : old.port = s.port) :
    upsertDb hostIp now db s = db := by
  simp [upsertDb, h, hp]

theorem upsertWrites_noop (hostIp now : String) (db : Db) (s : Service)
    (old : ServiceRow) (h : findRow db s.subdomain = some old)
    (hp : old.port = s.port) :
    upsertWrites hostIp now db s = [] := by
  simp [upsertWrites, h, hp]

theorem findRow_upsertDb_of_ne (hostIp now : String) (db : Db) (s : Service)
    (sub : String) (h : s.subdomain ≠ sub) :
    findRow (upsertDb hostIp now db s) sub = findRow db sub := by
  cases hf : findRow db s.subdomain with
  | none =>
      rw [upsertDb_absent hostIp now db s hf]
      cases hg : findRow db sub with
      | none => rw [findRow_append_of_none db _ sub hg, if_neg h]
      | some x => rw [findRow_append_of_some db _ x sub hg]
  | some old =>
      by_cases hp : old.port = s.port
      · rw [upsertDb_noop hostIp now db s old hf hp]
      · rw [upsertDb_update hostIp now db s old hf hp]
        exact findRow_updateRow_of_ne db s.subdomain sub s.port now h

/-! ### Lemmas about the upsert loop -/

theorem upsertLoopDb_stable (hostIp : String) (nowAt : Nat → String)
    (l : List Service) :
    ∀ (i : Nat) (db : Db) (sub : String) (r : ServiceRow),
      findRow db sub = some r →
      (∀ s ∈ l, s.subdomain = sub → s.port = r.port) →
      findRow (upsertLoopDb hostIp nowAt l i db) sub = some r := by
  induction l with
  | nil => intro i db sub r hf _; exact hf
  | cons s0 rest ih =>
      intro i db sub r hf hports
      simp only [upsertLoopDb]
      by_cases hs : s0.subdomain = sub
      · have hfs : findRow db s0.subdomain = some r := by rw [hs]; exact hf
        have hp : r.port = s0.port := (hports s0 (by simp) hs).symm
        rw [upsertDb_noop hostIp (nowAt i) db s0 r hfs hp]
        exact ih (i + 1) db sub r hf
          (fun s hm hsub => hports s (by simp [hm]) hsub)
      · have hf1 : findRow (upsertDb hostIp (nowAt i) db s0) sub = some r := by
          rw [findRow_upsertDb_of_ne hostIp (nowAt i) db s0 sub hs]; exact hf
        exact ih (i + 1) _ sub r hf1
          (fun s hm hsub => hports s (by simp [hm]) hsub)

theorem upsertLoopDb_port (hostIp : String) (nowAt : Nat → String)
    (l : List Service) :
    ∀ (i : Nat) (db : Db),
      (∀ s1 ∈ l, ∀ s2 ∈ l, s1.subdomain = s2.subdomain → s1.port = s2.port) →
      ∀ s ∈ l,
        ∃ r, findRow (upsertLoopDb hostIp nowAt l i db) s.subdomain = some r ∧
          r.port = s.port := by
  induction l with
  | nil => intro i db _ s hs; exact absurd hs (List.not_mem_nil s)
  | cons s0 rest ih =>
      intro i db hpair s hs
      simp only [upsertLoopDb]
      rcases List.mem_cons.mp hs with rfl | hmem
      · have step : ∃ r1, findRow (upsertDb hostIp (nowAt i) db s) s.subdomain =
            some r1 ∧ r1.port = s.port := by
          cases hf : findRow db s.subdomain with
          | none =>
              refine ⟨⟨nowAt i, hostIp, s.port, s.subdomain, nowAt i⟩, ?_, rfl⟩
              rw [upsertDb_absent hostIp (nowAt i) db s hf,
                findRow_append_of_none db _ _ hf]
              simp
          | some old =>
              by_cases hp : old.port = s.port
              · refine ⟨old, ?_, hp⟩
                rw [upsertDb_noop hostIp (nowAt i) db s old hf hp]
                exact hf
              · refine ⟨{ old with port := s.port, updated_at := nowAt i }, ?_, rfl⟩
                rw [upsertDb_update hostIp (nowAt i) db s old hf hp,
                  findRow_updateRow_self db s.subdomain s.port (nowAt i), hf]
                rfl
        obtain ⟨r1, hfind, hport⟩ := step
        refine ⟨r1, ?_, hport⟩
        apply upsertLoopDb_stable hostIp nowAt rest (i + 1) _ s.subdomain r1 hfind
        intro s2 hm hsub
        rw [hport]
        exact hpair s2 (by simp [hm]) s (by simp) hsub
      · exact ih (i + 1) _
          (fun s1 h1 s2 h2 => hpair s1 (by simp [h1]) s2 (by simp [h2])) s hmem

theorem upsertLoopDb_insert (hostIp : String) (nowAt : Nat → String)
    (l : List Service) :
    ∀ (i : Nat) (db : Db) (sub : String),
      findRow db sub = none →
      (∀ s1 ∈ l, ∀ s2 ∈ l, s1.subdomain = s2.subdomain → s1.port = s2.port) →
      ∀ s ∈ l, s.subdomain = sub →
      ∃ j, i ≤ j ∧ j < i + l.length ∧
        findRow (upsertLoopDb hostIp nowAt l i db) sub =
          some ⟨nowAt j, hostIp, s.port, sub, nowAt j⟩ := by
  induction l with
  | nil => intro i db sub _ _ s hs; exact absurd hs (List.not_mem_nil s)
  | cons s0 rest ih =>
      intro i db sub hnone hpair s hs hsub
      simp only [upsertLoopDb]
      by_cases h0 : s0.subdomain = sub
      · have hf0 : findRow db s0.subdomain = none := by rw [h0]; exact hnone
        have hfind : findRow (upsertDb hostIp (nowAt i) db s0) sub =
            some ⟨nowAt i, hostIp, s0.port, s0.subdomain, nowAt i⟩ := by
          rw [upsertDb_absent hostIp (nowAt i) db s0 hf0,
            findRow_append_of_none db _ sub hnone]
          simp [h0]
        have hport : s.port = s0.port :=
          hpair s hs s0 (by simp) (by rw [hsub, h0])
        refine ⟨i, le_refl i, by simp, ?_⟩
        have hstable := upsertLoopDb_stable hostIp nowAt rest (i + 1) _ sub
          ⟨nowAt i, hostIp, s0.port, s0.subdomain, nowAt i⟩ hfind
          (fun s2 hm hs2 => hpair s2 (by simp [hm]) s0 (by simp) (by rw [hs2, h0]))
        rw [hstable, hport, h0]
      · have hmem : s ∈ rest := by
          rcases List.mem_cons.mp hs with rfl | hm
          · exact absurd hsub h0
          · exact hm
        have hnone1 : findRow (upsertDb hostIp (nowAt i) db s0) sub = none := by
          rw [findRow_upsertDb_of_ne hostIp (nowAt i) db s0 sub h0]; exact hnone
        obtain ⟨j, hj1, hj2, hj3⟩ := ih (i + 1) _ sub hnone1
          (fun s1 h1 s2 h2 => hpair s1 (by simp [h1]) s2 (by simp [h2])) s hmem hsub
        refine ⟨j, by omega, ?_, hj3⟩
        simp only [List.length_cons] at hj2 ⊢
        omega

theorem upsertLoopDb_preserve (hostIp : String) (nowAt : Nat → String)
    (l : List Service) :
    ∀ (i : Nat) (db : Db) (sub : String) (old : ServiceRow),
      findRow db sub = some old →
      ∃ r, findRow (upsertLoopDb hostIp nowAt l i db) sub = some r ∧
        r.created_at = old.created_at ∧ r.host_ip = old.host_ip ∧
        (r = old ∨ ∃ j, i ≤ j ∧ j < i + l.length ∧ r.updated_at = nowAt j) := by
  induction l with
  | nil => intro i db sub old hf; exact ⟨old, hf, rfl, rfl, Or.inl rfl⟩
  | cons s0 rest ih =>
      intro i db sub old hf
      simp only [upsertLoopDb]
      by_cases h0 : s0.subdomain = sub
      · have hf0 : findRow db s0.subdomain = some old := by rw [h0]; exact hf
        by_cases hp : old.port = s0.port
        · rw [upsertDb_noop hostIp (nowAt i) db s0 old hf0 hp]
          obtain ⟨r, h1, h2, h3, h4⟩ := ih (i + 1) db sub old hf
          refine ⟨r, h1, h2, h3, ?_⟩
          rcases h4 with h4 | ⟨j, hj1, hj2, hj3⟩
          · exact Or.inl h4
          · refine Or.inr ⟨j, by omega, ?_, hj3⟩
            simp only [List.length_cons] at hj2 ⊢
            omega
        · rw [upsertDb_update hostIp (nowAt i) db s0 old hf0 hp]
          have hfind : findRow (updateRow db s0.subdomain s0.port (nowAt i)) sub =
              some { old with port := s0.port, updated_at := nowAt i } := by
            rw [h0, findRow_updateRow_self db sub s0.port (nowAt i), hf]
            rfl
          obtain ⟨r, h1, h2, h3, h4⟩ := ih (i + 1) _ sub _ hfind
          refine ⟨r, h1, h2, h3, ?_⟩
          rcases h4 with h4 | ⟨j, hj1, hj2, hj3⟩
          · refine Or.inr ⟨i, le_refl i, by simp, ?_⟩
            rw [h4]
          · refine Or.inr ⟨j, by omega, ?_, hj3⟩
            simp only [List.length_cons] at hj2 ⊢
            omega
      · have hf1 : findRow (upsertDb hostIp (nowAt i) db s0) sub = some old := by
          rw [findRow_upsertDb_of_ne hostIp (nowAt i) db s0 sub h0]; exact hf
        obtain ⟨r, h1, h2, h3, h4⟩ := ih (i + 1) _ sub old hf1
        refine ⟨r, h1, h2, h3, ?_⟩
        rcases h4 with h4 | ⟨j, hj1, hj2, hj3⟩
        · exact Or.inl h4
        · refine Or.inr ⟨j, by omega, ?_, hj3⟩
          simp only [List.length_cons] at hj2 ⊢
          omega

theorem upsertLoop_noop (hostIp : String) (nowAt : Nat → String)
    (l : List Service) :
    ∀ (i : Nat) (db : Db),
      (∀ s ∈ l, ∃ r, findRow db s.subdomain = some r ∧ r.port = s.port) →
      upsertLoopDb hostIp nowAt l i db = db ∧
        upsertLoopWrites hostIp nowAt l i db = [] := by
  induction l with
  | nil => intro i db _; exact ⟨rfl, rfl⟩
  | cons s0 rest ih =>
      intro i db hstored
      obtain ⟨r, hf, hp⟩ := hstored s0 (by simp)
      have hnoop := upsertDb_noop hostIp (nowAt i) db s0 r hf hp
      have hw := upsertWrites_noop hostIp (nowAt i) db s0 r hf hp
      have hrest := ih (i + 1) db (fun s hm => hstored s (by simp [hm]))
      simp only [upsertLoopDb, upsertLoopWrites, hnoop, hw]
      exact ⟨hrest.1, by simp [hrest.2]⟩

theorem upsertDb_map_subdomain (hostIp now : String) (db : Db) (s : Service) :
    (upsertDb hostIp now db s).map (fun r => r.subdomain) =
        db.map (fun r => r.subdomain) ∨
      ((upsertDb hostIp now db s).map (fun r => r.subdomain) =
          db.map (fun r => r.subdomain) ++ [s.subdomain] ∧
        findRow db s.subdomain = none) := by
  cases hf : findRow db s.subdomain with
  | none =>
      refine Or.inr ⟨?_, rfl⟩
      rw [upsertDb_absent hostIp now db s hf]
      simp
  | some old =>
      by_cases hp : old.port = s.port
      · rw [upsertDb_noop hostIp now db s old hf hp]; exact Or.inl rfl
      · rw [upsertDb_update hostIp now db s old hf hp]
        exact Or.inl (updateRow_map_subdomain db s.subdomain s.port now)

theorem upsertLoopDb_nodup (hostIp : String) (nowAt : Nat → String)
    (l : List Service) :
    ∀ (i : Nat) (db : Db), (db.map (fun r => r.subdomain)).Nodup →
      ((upsertLoopDb hostIp nowAt l i db).map (fun r => r.subdomain)).Nodup := by
  induction l with
  | nil => intro i db h; exact h
  | cons s0 rest ih =>
      intro i db h
      simp only [upsertLoopDb]
      apply ih
      rcases upsertDb_map_subdomain hostIp (nowAt i) db s0 with heq | ⟨heq, hnone⟩
      · rw [heq]; exact h
      · rw [heq]
        have hnotin : s0.subdomain ∉ db.map (fun r => r.subdomain) := by
          intro hmem
          obtain ⟨r, hr, hrs⟩ := List.mem_map.mp hmem
          exact (findRow_eq_none_iff db s0.subdomain).mp hnone r hr hrs
        simp [List.nodup_append, h, hnotin]

/-! ### Lemmas about the host grouping of the file renderer -/

theorem findGroup_cons (k : String) (v : List ServiceRow)
    (gs : List (String × List ServiceRow)) (h : String) :
    findGroup ((k, v) :: gs) h = if k = h then some v else findGroup gs h := by
  simp only [findGroup, List.find?_cons]
  by_cases hk : k = h
  · simp [hk]
  · have hb : ((k, v).1 == h) = false := by simp [hk]
    simp [hb, hk]

theorem findGroup_addToGroup (acc : List (String × List ServiceRow))
    (r : ServiceRow) (h : String) :
    findGroup (addToGroup acc r) h =
      if h = r.host_ip then some ((findGroup acc r.host_ip).getD [] ++ [r])
      else findGroup acc h := by
  induction acc with
  | nil =>
      simp only [addToGroup]
      by_cases hh : h = r.host_ip
      · rw [findGroup_cons, if_pos hh.symm, if_pos hh]
        rfl
      · rw [findGroup_cons, if_neg (fun e => hh e.symm), if_neg hh]
  | cons g gs ih =>
      obtain ⟨k, v⟩ := g
      by_cases hg : k = r.host_ip
      · have hstep : addToGroup ((k, v) :: gs) r = (k, v ++ [r]) :: gs := by
          simp [addToGroup, hg]
        rw [hstep]
        by_cases hh : h = r.host_ip
        · simp [findGroup_cons, hg, hh]
        · have hk : ¬ k = h := fun e => hh (by rw [← e, hg])
          simp [findGroup_cons, hk, hh]
      · have hstep : addToGroup ((k, v) :: gs) r = (k, v) :: addToGroup gs r := by
          simp [addToGroup, hg]
        rw [hstep]
        by_cases hk : k = h
        · have hh : ¬ h = r.host_ip := fun e => hg (by rw [hk, e])
          simp [findGroup_cons, hk, hh]
        · simp only [findGroup_cons, if_neg hk]
          rw [ih]
          simp [findGroup_cons, hg, hk]

theorem findGroup_foldl_some (rows : Db) :
    ∀ (acc : List (String × List ServiceRow)) (h : String)
      (g : List ServiceRow), findGroup acc h = some g →
      findGroup (rows.foldl addToGroup acc) h =
        some (g ++ rows.filter (fun r => r.host_ip == h)) := by
  induction rows with
  | nil => intro acc h g hg; simpa using hg
  | cons r rest ih =>
      intro acc h g hg
      simp only [List.foldl_cons]
      by_cases hh : h = r.host_ip
      · have hacc : findGroup (addToGroup acc r) h = some (g ++ [r]) := by
          rw [findGroup_addToGroup, if_pos hh, ← hh, hg]
          rfl
        have := ih (addToGroup acc r) h (g ++ [r]) hacc
        rw [this]
        have hfil : (r :: rest).filter (fun x => x.host_ip == h) =
            r :: rest.filter (fun x => x.host_ip == h) := by
          simp [List.filter_cons, hh.symm]
        rw [hfil]
        simp
      · have hacc : findGroup (addToGroup acc r) h = some g := by
          rw [findGroup_addToGroup, if_neg hh, hg]
        have := ih (addToGroup acc r) h g hacc
        rw [this]
        have hfil : (r :: rest).filter (fun x => x.host_ip == h) =
            rest.filter (fun x => x.host_ip == h) := by
          have : (r.host_ip == h) = false := by
            simp
            exact fun e => hh e.symm
          simp [List.filter_cons, this]
        rw [hfil]

theorem findGroup_foldl_none (rows : Db) :
    ∀ (acc : List (String × List ServiceRow)) (h : String),
      findGroup acc h = none →
      rows.filter (fun r => r.host_ip == h) ≠ [] →
      findGroup (rows.foldl addToGroup acc) h =
        some (rows.filter (fun r => r.host_ip == h)) := by
  induction rows with
  | nil => intro acc h _ hne; exact absurd rfl hne
  | cons r rest ih =>
      intro acc h hg hne
      simp only [List.foldl_cons]
      by_cases hh : h = r.host_ip
      · have hacc : findGroup (addToGroup acc r) h = some [r] := by
          rw [findGroup_addToGroup, if_pos hh, ← hh, hg]
          rfl
        have := findGroup_foldl_some rest (addToGroup acc r) h [r] hacc
        rw [this]
        have hfil : (r :: rest).filter (fun x => x.host_ip == h) =
            r :: rest.filter (fun x => x.host_ip == h) := by
          simp [List.filter_cons, hh.symm]
        rw [hfil]
        simp
      · have hacc : findGroup (addToGroup acc r) h = none := by
          rw [findGroup_addToGroup, if_neg hh, hg]
        have hfil : (r :: rest).filter (fun x => x.host_ip == h) =
            rest.filter (fun x => x.host_ip == h) := by
          have : (r.host_ip == h) = false := by
            simp
            exact fun e => hh e.symm
          simp [List.filter_cons, this]
        rw [hfil] at hne ⊢
        exact ih (addToGroup acc r) h hacc hne

theorem groupByHost_mem (rows : Db) (h : String)
    (hmem : h ∈ rows.map (fun r => r.host_ip)) :
    (h, rows.filter (fun r => r.host_ip == h)) ∈ groupByHost rows := by
  have hne : rows.filter (fun r => r.host_ip == h) ≠ [] := by
    obtain ⟨r, hr, hrh⟩ := List.mem_map.mp hmem
    intro hempty
    have hmemf : r ∈ rows.filter (fun x => x.host_ip == h) :=
      List.mem_filter.mpr ⟨hr, by simp [hrh]⟩
    rw [hempty] at hmemf
    exact absurd hmemf (List.not_mem_nil r)
  have hfind : findGroup (groupByHost rows) h =
      some (rows.filter (fun r => r.host_ip == h)) :=
    findGroup_foldl_none rows [] h rfl hne
  simp only [findGroup, Option.map_eq_some'] at hfind
  obtain ⟨g0, hg0, hg2⟩ := hfind
  have hg1 : g0.1 = h := by
    have := List.find?_some hg0
    simpa using this
  have : g0 = (h, rows.filter (fun r => r.host_ip == h)) := by
    cases g0
    simp only at hg1 hg2
    rw [hg1, hg2]
  rw [← this]
  exact List.mem_of_find?_eq_some hg0

/-! ### Claim C1 -/

/-- Claim C1, counterexample: the payload from host 10.0.0.5 submitting
subdomain "app" twice, with port 1 and then port 2, is valid (every element
has a subdomain and a port), yet after the upsert engine runs no row stores
port 1, although (port 1, "app") was submitted: the second iteration
overwrote it.  So it is not the case that a row exists for every submitted
subdomain with the submitted port. -/
theorem upsert_row_exists_cex :
    (⟨1, "app"⟩ : Service) ∈
      (⟨"10.0.0.5", [⟨1, "app"⟩, ⟨2, "app"⟩]⟩ : ServicesRequest).services ∧
    ∀ r ∈ processRequest (fun _ => "t")
        ⟨"10.0.0.5", [⟨1, "app"⟩, ⟨2, "app"⟩]⟩ [],
      ¬(r.subdomain = "app" ∧ r.port = 1) := by
  decide

/-- Claim C1, amended: for a valid payload in which no two services share a
subdomain with different ports, after the upsert engine runs a row exists for
every submitted subdomain with the submitted port; a subdomain absent
beforehand was inserted with `created_at = updated_at` (both a loop
timestamp) and the request's host_ip; a subdomain present with a differing
stored port keeps its `created_at` and gets the new port and a fresh
`updated_at`. -/
theorem upsert_row_exists (nowAt : Nat → String) (body : ServicesRequest)
    (db : Db)
    (hpair : ∀ s1 ∈ body.services, ∀ s2 ∈ body.services,
      s1.subdomain = s2.subdomain → s1.port = s2.port) :
    ∀ s ∈ body.services,
      ∃ r, findRow (processRequest nowAt body db) s.subdomain = some r ∧
        r.port = s.port ∧
        (findRow db s.subdomain = none →
          r.created_at = r.updated_at ∧ r.host_ip = body.host_ip ∧
          ∃ j, j < body.services.length ∧ r.created_at = nowAt j) ∧
        (∀ old, findRow db s.subdomain = some old → old.port ≠ s.port →
          r.created_at = old.created_at ∧ r.host_ip = old.host_ip ∧
          ∃ j, j < body.services.length ∧ r.updated_at = nowAt j) := by
  intro s hs
  obtain ⟨r, hfind, hport⟩ :=
    upsertLoopDb_port body.host_ip nowAt body.services 0 db hpair s hs
  refine ⟨r, hfind, hport, ?_, ?_⟩
  · intro hnone
    obtain ⟨j, _, hjlen, hjfind⟩ := upsertLoopDb_insert body.host_ip nowAt
      body.services 0 db s.subdomain hnone hpair s hs rfl
    have hr : r = ⟨nowAt j, body.host_ip, s.port, s.subdomain, nowAt j⟩ :=
      Option.some.inj (hfind.symm.trans hjfind)
    refine ⟨by rw [hr], by rw [hr], j, by omega, by rw [hr]⟩
  · intro old hold hne
    obtain ⟨r2, h1, h2, h3, h4⟩ := upsertLoopDb_preserve body.host_ip nowAt
      body.services 0 db s.subdomain old hold
    have hr : r2 = r := Option.some.inj (h1.symm.trans hfind)
    rcases h4 with h4 | ⟨j, _, hj2, hj3⟩
    · exact absurd (by rw [← h4, hr, hport]) hne
    · exact ⟨by rw [← hr, h2], by rw [← hr, h3], j, by omega, by rw [← hr, hj3]⟩

/-- Witness for `upsert_row_exists` at a concrete fresh insert. -/
theorem upsert_row_exists_witness :
    ∃ r, findRow (processRequest (fun _ => "2024-01-01T00:00:00.000Z")
        ⟨"192.168.1.100", [⟨3000, "test-app"⟩]⟩ []) "test-app" = some r ∧
      r.port = 3000 ∧
      (findRow ([] : Db) "test-app" = none →
        r.created_at = r.updated_at ∧ r.host_ip = "192.168.1.100" ∧
        ∃ j, j < 1 ∧ r.created_at = "2024-01-01T00:00:00.000Z") ∧
      (∀ old, findRow ([] : Db) "test-app" = some old →
        old.port ≠ 3000 →
        r.created_at = old.created_at ∧ r.host_ip = old.host_ip ∧
        ∃ j, j < 1 ∧ r.updated_at = "2024-01-01T00:00:00.000Z") :=
  upsert_row_exists (fun _ => "2024-01-01T00:00:00.000Z")
    ⟨"192.168.1.100", [⟨3000, "test-app"⟩]⟩ [] (by decide)
    ⟨3000, "test-app"⟩ (by decide)

/-! ### Claim C2 -/

/-- Claim C2, counterexample: the row for "app" is stored with host_ip
10.0.0.1; an upsert for "app" arrives from host_ip 10.0.0.2 (with a new
port, so the update path runs), yet the stored host_ip afterwards is still
10.0.0.1 — not the request's host_ip.  Ownership is not transferred. -/
theorem subdomain_ownership_cex :
    (findRow (processRequest (fun _ => "t") ⟨"10.0.0.2", [⟨81, "app"⟩]⟩
        [⟨"c0", "10.0.0.1", 80, "app", "u0"⟩]) "app").map (fun r => r.host_ip) =
      some "10.0.0.1" ∧ ("10.0.0.1" : String) ≠ "10.0.0.2" := by
  decide

/-- Claim C2, amended: `subdomain` remains a unique key across hosts under
every upsert batch, and there is no conflict detection; but a later upsert
from a different host_ip does not overwrite ownership — the stored row's
host_ip is left unchanged (the UPDATE statement only sets port and
updated_at). -/
theorem subdomain_unique_no_transfer (nowAt : Nat → String)
    (body : ServicesRequest) (db : Db) :
    ((db.map (fun r => r.subdomain)).Nodup →
      ((processRequest nowAt body db).map (fun r => r.subdomain)).Nodup) ∧
    (∀ sub old, findRow db sub = some old →
      ∃ r, findRow (processRequest nowAt body db) sub = some r ∧
        r.host_ip = old.host_ip) := by
  constructor
  · intro h
    exact upsertLoopDb_nodup body.host_ip nowAt body.services 0 db h
  · intro sub old hold
    obtain ⟨r, h1, _, h3, _⟩ := upsertLoopDb_preserve body.host_ip nowAt
      body.services 0 db sub old hold
    exact ⟨r, h1, h3⟩

/-- Witness for `subdomain_unique_no_transfer`: the concrete cross-host
upsert keeps host_ip 10.0.0.1. -/
theorem subdomain_unique_no_transfer_witness :
    ∃ r, findRow (processRequest (fun _ => "t") ⟨"10.0.0.2", [⟨81, "app"⟩]⟩
        [⟨"c0", "10.0.0.1", 80, "app", "u0"⟩]) "app" = some r ∧
      r.host_ip = "10.0.0.1" :=
  (subdomain_unique_no_transfer (fun _ => "t") ⟨"10.0.0.2", [⟨81, "app"⟩]⟩
      [⟨"c0", "10.0.0.1", 80, "app", "u0"⟩]).2 "app"
    ⟨"c0", "10.0.0.1", 80, "app", "u0"⟩ (by decide)

/-! ### Claim C3 -/

/-- Claim C3, counterexample: with the valid payload that submits subdomain
"app" with port 1 and then port 2, the second application of the same
payload on the state the first produced performs two UPDATE writes, and
(the clock having advanced to "t2") changes the stored row's updated_at.
The no-op path is not taken for every service. -/
theorem upsert_idempotent_cex :
    processRequestWrites (fun _ => "t2")
        ⟨"10.0.0.5", [⟨1, "app"⟩, ⟨2, "app"⟩]⟩
        (processRequest (fun _ => "t1")
          ⟨"10.0.0.5", [⟨1, "app"⟩, ⟨2, "app"⟩]⟩ []) ≠ [] ∧
    processRequest (fun _ => "t2") ⟨"10.0.0.5", [⟨1, "app"⟩, ⟨2, "app"⟩]⟩
        (processRequest (fun _ => "t1")
          ⟨"10.0.0.5", [⟨1, "app"⟩, ⟨2, "app"⟩]⟩ []) ≠
      processRequest (fun _ => "t1")
        ⟨"10.0.0.5", [⟨1, "app"⟩, ⟨2, "app"⟩]⟩ [] := by
  decide

/-- Claim C3, amended: when no two services of the payload share a subdomain
with different ports, applying the upsert engine a second time on the state
produced by the first application performs no writes and leaves every row,
timestamps included, unchanged — whatever timestamps the second run would
use. -/
theorem upsert_idempotent (nowAt nowAt2 : Nat → String)
    (body : ServicesRequest) (db : Db)
    (hpair : ∀ s1 ∈ body.services, ∀ s2 ∈ body.services,
      s1.subdomain = s2.subdomain → s1.port = s2.port) :
    processRequest nowAt2 body (processRequest nowAt body db) =
        processRequest nowAt body db ∧
      processRequestWrites nowAt2 body (processRequest nowAt body db) = [] := by
  have hsp := upsertLoopDb_port body.host_ip nowAt body.services 0 db hpair
  exact upsertLoop_noop body.host_ip nowAt2 body.services 0 _ hsp

/-- Witness for `upsert_idempotent` at a concrete request. -/
theorem upsert_idempotent_witness :
    processRequest (fun _ => "t2") ⟨"h", [⟨3000, "app"⟩]⟩
        (processRequest (fun _ => "t1") ⟨"h", [⟨3000, "app"⟩]⟩ []) =
      processRequest (fun _ => "t1") ⟨"h", [⟨3000, "app"⟩]⟩ [] ∧
    processRequestWrites (fun _ => "t2") ⟨"h", [⟨3000, "app"⟩]⟩
      (processRequest (fun _ => "t1") ⟨"h", [⟨3000, "app"⟩]⟩ []) = [] :=
  upsert_idempotent (fun _ => "t1") (fun _ => "t2") ⟨"h", [⟨3000, "app"⟩]⟩ []
    (by decide)

/-! ### Claim C4 -/

/-- Claim C4: body validation performs its checks in the fixed source order —
body presence, then host_ip presence, then services presence and array-ness,
then, element by element, object-ness, subdomain presence, port presence —
and the POST route answers the first violation with a 400 naming that field,
leaving the database and the file system untouched.  The concrete body
`{"services": []}` with no host_ip yields `{"error": "host_ip required"}`. -/
theorem validate_order (body : JsVal) (hk : String) (nowAt : Nat → String)
    (st : ServerState) :
    (truthy body = false → validateBody body = some "Request body required") ∧
    (truthy body = true → hasIn body "host_ip" = false →
      validateBody body = some "host_ip required") ∧
    (truthy body = true → hasIn body "host_ip" = true →
      (hasIn body "services" = false ∨
        isArray (getProp body "services") = false) →
      validateBody body = some "Services required and must be an array") ∧
    (∀ items, truthy body = true → hasIn body "host_ip" = true →
      hasIn body "services" = true →
      getProp body "services" = JsVal.arr items →
      validateBody body = validateServices items) ∧
    (∀ item, (truthy item = false ∨ isObjectType item = false) →
      validateService item = some "Services must be an array of objects") ∧
    (∀ item, truthy item = true → isObjectType item = true →
      hasIn item "subdomain" = false →
      validateService item = some "Each service must contain a subdomain") ∧
    (∀ item, truthy item = true → isObjectType item = true →
      hasIn item "subdomain" = true → hasIn item "port" = false →
      validateService item = some "Each service must contain a port") ∧
    (∀ pre item post e, (∀ x ∈ pre, validateService x = none) →
      validateService item = some e →
      validateServices (pre ++ item :: post) = some e) ∧
    (validateBody (JsVal.obj [("services", JsVal.arr [])]) =
      some "host_ip required") ∧
    (∀ e, validateBody body = some e →
      handleRequest hk (some hk) (Request.postServices body) nowAt st =
        some (⟨400, RespBody.err e⟩, st)) := by
  refine ⟨?_, ?_, ?_, ?_, ?_, ?_, ?_, ?_, ?_, ?_⟩
  · intro h; simp [validateBody, h]
  · intro h1 h2; simp [validateBody, h1, h2]
  · intro h1 h2 h3
    rcases h3 with h3 | h3 <;> simp [validateBody, h1, h2, h3]
  · intro items h1 h2 h3 h4
    simp [validateBody, h1, h2, h3, h4, asArray, isArray]
  · intro item h
    rcases h with h | h <;> simp [validateService, h]
  · intro item h1 h2 h3; simp [validateService, h1, h2, h3]
  · intro item h1 h2 h3 h4; simp [validateService, h1, h2, h3, h4]
  · intro pre item post e hpre hitem
    induction pre with
    | nil => simp [validateServices, hitem]
    | cons x xs ih =>
        have hx : validateService x = none := hpre x (by simp)
        rw [List.cons_append]
        simp only [validateServices, hx]
        exact ih (fun y hy => hpre y (by simp [hy]))
  · decide
  · intro e he
    simp [handleRequest, handleRequestMode, he]

/-- Witness for `validate_order`: the POST with body `{"services": []}` is
answered 400 host_ip required with the state untouched. -/
theorem validate_order_witness :
    handleRequest "k" (some "k")
        (Request.postServices (JsVal.obj [("services", JsVal.arr [])]))
        (fun _ => "t") ⟨[], []⟩ =
      some (⟨400, RespBody.err "host_ip required"⟩, ⟨[], []⟩) :=
  ((validate_order (JsVal.obj [("services", JsVal.arr [])]) "k" (fun _ => "t")
      ⟨[], []⟩).2.2.2.2.2.2.2.2.2) "host_ip required" (by decide)

/-! ### Claim C5 -/

/-- Claim C5: the renderer writes, for each host_ip present among the rows,
the file `chs_<host_ip with dots as underscores>` whose content is the
concatenation, blank-line separated, of each of that host's rows' two-line
handler blocks; camelCase of "test-app" is "testApp", and the single row
(test-app, 192.168.1.100, 3000) produces exactly the stated file. -/
theorem render_files (rows : Db) :
    (∀ h, h ∈ rows.map (fun r => r.host_ip) →
      (fileName h, renderHost (rows.filter (fun r => r.host_ip == h))) ∈
        writeHandlerFiles rows) ∧
    camelCase "test-app" = "testApp" ∧
    (∀ c u, writeHandlerFiles [⟨c, "192.168.1.100", 3000, "test-app", u⟩] =
      [("chs_192_168_1_100",
        "@testApp host test-app.\x7b$INTERNAL_DOMAIN\x7d\nhandle @testApp \x7b\n  reverse_proxy 192.168.1.100:3000\n\x7d")]) := by
  refine ⟨?_, by decide, fun c u => rfl⟩
  intro h hmem
  exact List.mem_map_of_mem _ (groupByHost_mem rows h hmem)

/-- Witness for `render_files`: the single concrete row's host is rendered
into the member file write. -/
theorem render_files_witness :
    (fileName "192.168.1.100",
      renderHost (([⟨"c", "192.168.1.100", 3000, "test-app", "u"⟩] : Db).filter
        (fun r => r.host_ip == "192.168.1.100"))) ∈
      writeHandlerFiles [⟨"c", "192.168.1.100", 3000, "test-app", "u"⟩] :=
  (render_files [⟨"c", "192.168.1.100", 3000, "test-app", "u"⟩]).1
    "192.168.1.100" (by decide)

/-! ### Claim C6 -/

/-- Claim C6: a request to any of the four endpoints whose X-Handshake-Key
header is missing or differs from the configured shared secret is answered
401 Unauthorized with the state untouched — no body validation, database
access or file write happens — in dry-run and in live mode alike. -/
theorem auth_unauthorized (dryRun : Bool) (hk : String) (hdr : Option String)
    (req : Request) (nowAt : Nat → String) (st : ServerState)
    (h : hdr ≠ some hk) :
    handleRequestMode dryRun hk hdr req nowAt st =
        some (⟨401, RespBody.err "Unauthorized"⟩, st) ∧
      handleRequest hk hdr req nowAt st =
        some (⟨401, RespBody.err "Unauthorized"⟩, st) := by
  constructor <;> simp [handleRequestMode, handleRequest, h]

/-- Witness for `auth_unauthorized`: a missing header on a POST with a fully
valid body is still answered 401 with nothing written. -/
theorem auth_unauthorized_witness :
    handleRequest "secret" none
        (Request.postServices (JsVal.obj [("host_ip", JsVal.str "1.2.3.4"),
          ("services", JsVal.arr [JsVal.obj [("subdomain", JsVal.str "a"),
            ("port", JsVal.num 80)]])]))
        (fun _ => "t") ⟨[], []⟩ =
      some (⟨401, RespBody.err "Unauthorized"⟩, ⟨[], []⟩) :=
  (auth_unauthorized false "secret" none _ (fun _ => "t") ⟨[], []⟩
    (by decide)).2

/-! ### Claim C7 -/

/-- Claim C7: DELETE /services/:subdomain for a subdomain with no stored row
is answered 200 Success and the row set is exactly unchanged. -/
theorem delete_absent (hk sub : String) (nowAt : Nat → String)
    (st : ServerState) (h : sub ∉ st.db.map (fun r => r.subdomain)) :
    ∃ st2, handleRequest hk (some hk) (Request.deleteService sub) nowAt st =
        some (⟨200, RespBody.msg "Success"⟩, st2) ∧ st2.db = st.db := by
  have hfil : deleteRows st.db sub = st.db := by
    apply List.filter_eq_self.mpr
    intro r hr
    have hne : r.subdomain ≠ sub := fun e => h (List.mem_map.mpr ⟨r, hr, e⟩)
    simpa using hne
  refine ⟨⟨st.db, applyWrites st.files (writeHandlerFilesMode false st.db)⟩,
    ?_, rfl⟩
  simp [handleRequest, handleRequestMode, hasInParams, hfil]

/-- Witness for `delete_absent`: deleting the unknown subdomain "ghost"
answers 200 and leaves the single stored row in place. -/
theorem delete_absent_witness :
    ∃ st2, handleRequest "k" (some "k") (Request.deleteService "ghost")
        (fun _ => "t") ⟨[⟨"c", "1.2.3.4", 80, "app", "u"⟩], []⟩ =
        some (⟨200, RespBody.msg "Success"⟩, st2) ∧
      st2.db = [⟨"c", "1.2.3.4", 80, "app", "u"⟩] :=
  delete_absent "k" "ghost" (fun _ => "t")
    ⟨[⟨"c", "1.2.3.4", 80, "app", "u"⟩], []⟩ (by decide)

/-! ### Claim C8 -/

/-- Claim C8, counterexample: a DELETE whose subdomain parameter is the
empty string, sent with a valid key, is answered 200 Success — not 400 —
because the guard condition requires the parameter to be missing AND empty
at once, which never holds when Express has bound the parameter. -/
theorem delete_empty_subdomain_cex :
    (handleRequest "k" (some "k") (Request.deleteService "") (fun _ => "t")
        ⟨[⟨"c", "1.2.3.4", 80, "app", "u"⟩], []⟩).map (fun p => p.1) =
      some ⟨200, RespBody.msg "Success"⟩ := by
  decide

/-- Claim C8, amended: DELETE /services/:subdomain with an empty subdomain
parameter (after passing authentication) is NOT rejected: the handler's 400
guard is dead code (its condition conjoins "parameter missing" with
"parameter empty"), so the request is answered 200 Success and the DELETE
statement runs, removing exactly the rows whose subdomain is the empty
string. -/
theorem delete_empty_subdomain (hk : String) (nowAt : Nat → String)
    (st : ServerState) :
    handleRequest hk (some hk) (Request.deleteService "") nowAt st =
      some (⟨200, RespBody.msg "Success"⟩,
        ⟨deleteRows st.db "",
          applyWrites st.files
            (writeHandlerFilesMode false (deleteRows st.db ""))⟩) := by
  simp [handleRequest, handleRequestMode, hasInParams]

/-! ### Claim C9 -/

/-- Claim C9: with dry-run enabled no request mutates the state, GET
/services answers the empty list, and the authentication check, the body
validation (same ordered messages) and the success/error response shapes
coincide with live mode, so auth/validation behavior cannot distinguish the
modes. -/
theorem dry_run_behavior (hk : String) (hdr : Option String) (req : Request)
    (nowAt : Nat → String) (st : ServerState) :
    (∀ resp st2, handleRequestMode true hk hdr req nowAt st =
      some (resp, st2) → st2 = st) ∧
    (handleRequestMode true hk (some hk) Request.getServices nowAt st =
      some (⟨200, RespBody.rows []⟩, st)) ∧
    (hdr ≠ some hk →
      handleRequestMode true hk hdr req nowAt st =
        handleRequestMode false hk hdr req nowAt st) ∧
    (∀ body e, validateBody body = some e →
      handleRequestMode true hk (some hk) (Request.postServices body) nowAt
          st = some (⟨400, RespBody.err e⟩, st) ∧
        handleRequestMode false hk (some hk) (Request.postServices body) nowAt
          st = some (⟨400, RespBody.err e⟩, st)) ∧
    (∀ body r, validateBody body = none → requestOfJs body = some r →
      (handleRequestMode true hk (some hk) (Request.postServices body) nowAt
          st).map (fun p => p.1) = some ⟨200, RespBody.msg "Success"⟩ ∧
        (handleRequestMode false hk (some hk) (Request.postServices body) nowAt
          st).map (fun p => p.1) = some ⟨200, RespBody.msg "Success"⟩) ∧
    (handleRequestMode true hk (some hk) Request.healthCheck nowAt st =
      some (⟨200, RespBody.msg "Health check received"⟩, st)) ∧
    (∀ sub,
      (handleRequestMode true hk (some hk) (Request.deleteService sub) nowAt
          st).map (fun p => p.1) =
        (handleRequestMode false hk (some hk) (Request.deleteService sub) nowAt
          st).map (fun p => p.1)) := by
  refine ⟨?_, ?_, ?_, ?_, ?_, ?_, ?_⟩
  · intro resp st2 hres
    by_cases hauth : hdr = some hk
    · cases req with
      | healthCheck =>
          simp [handleRequestMode, hauth] at hres
          exact hres.2.symm
      | getServices =>
          simp [handleRequestMode, hauth] at hres
          exact hres.2.symm
      | postServices body =>
          cases hv : validateBody body with
          | some e =>
              simp [handleRequestMode, hauth, hv] at hres
              exact hres.2.symm
          | none =>
              simp [handleRequestMode, hauth, hv] at hres
              exact hres.2.symm
      | deleteService sub =>
          simp [handleRequestMode, hauth, hasInParams] at hres
          exact hres.2.symm
    · simp [handleRequestMode, hauth] at hres
      exact hres.2.symm
  · simp [handleRequestMode, getAllServicesMode]
  · intro h
    simp [handleRequestMode, h]
  · intro body e he
    constructor <;> simp [handleRequestMode, he]
  · intro body r hv hr
    constructor <;> simp [handleRequestMode, hv, hr]
  · simp [handleRequestMode]
  · intro sub
    simp [handleRequestMode, hasInParams]

/-- Witness for `dry_run_behavior`: the invalid body `{"services": []}` is
answered 400 host_ip required in both modes, with the state untouched. -/
theorem dry_run_behavior_witness :
    handleRequestMode true "k" (some "k")
        (Request.postServices (JsVal.obj [("services", JsVal.arr [])]))
        (fun _ => "t") ⟨[], []⟩ =
        some (⟨400, RespBody.err "host_ip required"⟩, ⟨[], []⟩) ∧
      handleRequestMode false "k" (some "k")
        (Request.postServices (JsVal.obj [("services", JsVal.arr [])]))
        (fun _ => "t") ⟨[], []⟩ =
        some (⟨400, RespBody.err "host_ip required"⟩, ⟨[], []⟩) :=
  ((dry_run_behavior "k" (some "k") Request.healthCheck (fun _ => "t")
      ⟨[], []⟩).2.2.2.1) (JsVal.obj [("services", JsVal.arr [])])
    "host_ip required" (by decide)

/-! ### Claim C10 -/

/-- Claim C10: the client's per-container port derivation is partial — for a
container carrying the subdomain label but no port label, whose only
published port is bound to an IPv6 address, the IPv4 filter yields the empty
list, indexing it throws, and no batch payload is built for that scan. -/
theorem client_port_partial :
    getLabel ⟨[("app.subdomain", "blog")], [⟨"::", 8080⟩]⟩ "app.subdomain" =
        some "blog" ∧
      getLabel ⟨[("app.subdomain", "blog")], [⟨"::", 8080⟩]⟩
        "app.subdomain.port" = none ∧
      (⟨[("app.subdomain", "blog")], [⟨"::", 8080⟩]⟩ : Container).Ports.filter
        (fun p => isIPv4 p.IP) = [] ∧
      derivePort "app.subdomain.port"
        ⟨[("app.subdomain", "blog")], [⟨"::", 8080⟩]⟩ = none ∧
      buildPayload "127.0.0.1" "app.subdomain" "app.subdomain.port"
        [⟨[("app.subdomain", "blog")], [⟨"::", 8080⟩]⟩] = none := by
  decide

end CHS
